import Mathlib

/-!
Shallow embedding of the image fingerprint & similarity core of the
repository (src/model/src/model.py, src/model/src/dataset.py,
src/model/src/training.py), with proofs of the spec's testable
properties against it.

Modelling conventions:
* Python floats are modelled as exact rationals (`ℚ`); a possibly
  non-finite float (NaN/inf) is `Flt := Option ℚ` with `none` for the
  non-finite case.
* A Python `dict` is an insertion-ordered association list; writing to
  an existing key replaces the value in place (keeping the position),
  writing a fresh key appends — exactly CPython's dict semantics.
* External oracles (PIL image loading, SHA-256 hashing, the CLIP
  feature extractor) are passed in as argument values: `none`/`false`
  marks the call raising an exception, `some x` a successful result.
-/

/-- Image key: the `image_path` string used as dict key throughout the source. -/
abbrev Key := String

/-- Content digest: the hex SHA-256 string produced by `get_image_hash`. -/
abbrev Digest := String

/-- Embedding vector (source: a 512-dim float tensor). -/
abbrev Vec := List ℚ

/-- Lookup in a Python-dict-as-association-list (`d[k]` / `k in d`). -/
def dictLookup (d : List (Key × α)) (k : Key) : Option α :=
  match d with
  | [] => none
  | (k', v) :: rest => if k' = k then some v else dictLookup rest k

/-- Python dict assignment `d[k] = v`: replace in place if the key is
present (keeping its position), otherwise append at the end. -/
def dictInsert (d : List (Key × α)) (k : Key) (v : α) : List (Key × α) :=
  match d with
  | [] => [(k, v)]
  | (k', v') :: rest => if k' = k then (k, v) :: rest else (k', v') :: dictInsert rest k v

/-- The `image_database` dict of `ImageSimilarityModel`:
`{"embeddings": {}, "hashes": {}, "paths": []}`. -/
structure ImageDatabase where
  hashes : List (Key × Digest)
  embeddings : List (Key × Vec)
  paths : List Key
deriving DecidableEq

/-- The freshly created database (`_load_database` with no file on disk). -/
def emptyDB : ImageDatabase := { hashes := [], embeddings := [], paths := [] }

/-- Squared Euclidean norm of a vector. -/
def normSq (v : Vec) : ℚ := (v.map (fun x => x * x)).sum

/-- The division `image_features / image_features.norm(...)` performed at the
end of `get_image_embedding`: `s` is the float the source's `.norm()` call
returned (constrained to `s * s = normSq v` where the claims need it). -/
def normalizeVec (v : Vec) (s : ℚ) : Vec := v.map (fun x => x / s)

/-- `get_image_embedding`: the CLIP features pushed through the projection
layer are the oracle value `v`; the function returns `v` divided by its
norm `s`.  (CLIP inference and the linear layer are external arithmetic;
only the final normalization is the model's own logic.) -/
def getImageEmbedding (v : Vec) (s : ℚ) : Vec := normalizeVec v s

/-- `add_image(image_path, compute_embedding)`.  Oracle arguments:
`openDigest` is the joint result of `Image.open` + `get_image_hash`
(`none` = exception), `embedRes` the projected features and their norm from
`get_image_embedding` (`none` = exception), `saveOk` whether
`save_database` succeeded.  Returns the Python `True`/`False` result
together with the database state after the call (the `try/except` catches
every exception after mutation has already happened). -/
def addImage (db : ImageDatabase) (path : Key) (openDigest : Option Digest)
    (computeEmbedding : Bool) (embedRes : Option (Vec × ℚ)) (saveOk : Bool) :
    Bool × ImageDatabase :=
  match openDigest with
  | none => (false, db)
  | some h =>
    let db1 : ImageDatabase :=
      { db with
        hashes := dictInsert db.hashes path h
        paths := if path ∈ db.paths then db.paths else db.paths ++ [path] }
    if computeEmbedding then
      match embedRes with
      | none => (false, db1)
      | some vs =>
        let db2 : ImageDatabase :=
          { db1 with embeddings := dictInsert db1.embeddings path (getImageEmbedding vs.1 vs.2) }
        (saveOk, db2)
    else
      (saveOk, db1)

/-- One iteration of the bulk-embedding loops in `train_model` (the
"compute all embeddings at once" pass and the post-training refresh pass):
`model.image_database["embeddings"][path] = embedding` for a successfully
processed image; a raised exception (`res = none`) is caught and skips the
write. -/
def bulkEmbedStep (db : ImageDatabase) (path : Key) (res : Option (Vec × ℚ)) :
    ImageDatabase :=
  match res with
  | none => db
  | some vs => { db with embeddings := dictInsert db.embeddings path (getImageEmbedding vs.1 vs.2) }

/-- Dot product, the `torch.matmul(query_embedding, embedding.T).item()` score. -/
def dot (a b : Vec) : ℚ := (List.zipWith (fun x y => x * y) a b).sum

/-- The ordering used by `similarities.sort(key=lambda x: x[1], reverse=True)`:
descending by score.  Python's sort is stable; `List.insertionSort` with
this relation is the stable descending sort. -/
def simOrder (a b : Key × ℚ) : Prop := b.2 ≤ a.2

instance : DecidableRel simOrder := fun a b => inferInstanceAs (Decidable (b.2 ≤ a.2))

instance : IsTotal (Key × ℚ) simOrder := ⟨fun a b => le_total b.2 a.2⟩

instance : IsTrans (Key × ℚ) simOrder := ⟨fun _ _ _ h1 h2 => le_trans h2 h1⟩

/-- The exact-duplicate scan of `find_similar_images`: every stored item
whose hash equals the query hash, paired with score `1.0`, in hashes-dict
order. -/
def exactMatches (db : ImageDatabase) (queryDigest : Digest) : List (Key × ℚ) :=
  (db.hashes.filter (fun p => p.2 = queryDigest)).map (fun p => (p.1, (1 : ℚ)))

/-- The embedding-ranking scan of `find_similar_images`: one `(path, score)`
per entry of the embeddings dict, in dict order. -/
def similarityList (db : ImageDatabase) (queryEmbedding : Vec) : List (Key × ℚ) :=
  db.embeddings.map (fun p => (p.1, dot queryEmbedding p.2))

/-- `find_similar_images(query_image, top_k)`.  The query image has already
been turned into `queryEmbedding` (via `get_image_embedding`) and
`queryDigest` (via `get_image_hash`).  Exact hash matches short-circuit;
otherwise the similarity list is stable-sorted descending by score and
truncated to `top_k`. -/
def findSimilarImages (db : ImageDatabase) (queryEmbedding : Vec)
    (queryDigest : Digest) (topK : Nat) : List (Key × ℚ) :=
  let exact := exactMatches db queryDigest
  if exact.isEmpty then
    (List.insertionSort simOrder (similarityList db queryEmbedding)).take topK
  else
    exact

/-- Python's `l[-n:]` slice for `n ≥ 1`: the last `min n (length l)`
elements, in list order (`similarities[-3:]` in `_generate_pairs`). -/
def lastN (n : Nat) (l : List (Key × ℚ)) : List (Key × ℚ) := l.drop (l.length - n)

/-- The Python-level error the pair-mining code raises: `dataset.py`
imports only `torch.utils.data.Dataset` and `PIL.Image`, so the bare
name `torch` is unbound and line 28's `torch.matmul(emb_i, emb_j.T)`
raises `NameError: name 'torch' is not defined` whenever it is
evaluated. -/
inductive PyError where
  | nameError
deriving DecidableEq

/-- The inner `for j, other_path in enumerate(self.image_paths)` loop of
`_generate_pairs` for the anchor at index `i`: skip `i == j` and
candidates without a stored embedding; for an embedded other candidate
the code evaluates `torch.matmul(emb_i, emb_j.T)` — and since `torch`
is unbound in `dataset.py`, reaching that line raises `NameError`,
aborting the whole dataset construction.  (The similarity value itself
is therefore never produced; the anchor embedding `emb_i`, bound just
before the loop, plays no further role.) -/
def simsFrom (db : ImageDatabase) (i : Nat) :
    Nat → List Key → Except PyError (List (Key × ℚ))
  | _, [] => Except.ok []
  | j, other :: rest =>
    if i = j then simsFrom db i (j + 1) rest
    else
      match dictLookup db.embeddings other with
      | none => simsFrom db i (j + 1) rest
      | some _ => Except.error PyError.nameError

/-- The similarities list for anchor index `i` over the whole candidate
list: `Except.ok []` when no other embedded candidate is encountered,
otherwise the `NameError` from the first `torch.matmul`. -/
def anchorSims (db : ImageDatabase) (cands : List Key) (i : Nat) :
    Except PyError (List (Key × ℚ)) :=
  simsFrom db i 0 cands

/-- The pairs `_generate_pairs` emits for one anchor: nothing if the
anchor path has no stored embedding; otherwise the similarities loop
runs (raising `NameError` at the first other embedded candidate) and,
if it returns, the list is stable-sorted descending and the first `pos`
are labeled 1, the last `neg` labeled 0.  The source hardcodes
`pos = neg = 3` (the `[:3]` / `[-3:]` slices); the counts are
parameters here. -/
def minedFor (db : ImageDatabase) (cands : List Key) (i : Nat) (path : Key)
    (pos neg : Nat) : Except PyError (List (Key × Key × Nat)) :=
  match dictLookup db.embeddings path with
  | none => Except.ok []
  | some _ =>
    match anchorSims db cands i with
    | Except.error e => Except.error e
    | Except.ok sims =>
      let sorted := List.insertionSort simOrder sims
      Except.ok ((sorted.take pos).map (fun p => (path, p.1, 1))
        ++ (lastN neg sorted).map (fun p => (path, p.1, 0)))

/-- The outer `for i, path in enumerate(self.image_paths)` loop of
`_generate_pairs`, carrying the running index; an exception raised at
any anchor propagates (the partially built `pairs` list is discarded,
since the function never returns). -/
def genFrom (db : ImageDatabase) (cands : List Key) (pos neg : Nat) :
    Nat → List Key → Except PyError (List (Key × Key × Nat))
  | _, [] => Except.ok []
  | i, path :: rest =>
    match minedFor db cands i path pos neg with
    | Except.error e => Except.error e
    | Except.ok prs =>
      match genFrom db cands pos neg (i + 1) rest with
      | Except.error e => Except.error e
      | Except.ok more => Except.ok (prs ++ more)

/-- `SimilarImagePairsDataset._generate_pairs` over candidate list
`cands` (the dataset's `image_paths`), generalized over the positive and
negative counts (the source uses 3 and 3): either the `NameError` of the
first evaluated `torch.matmul`, or the mined pairs. -/
def generatePairs (db : ImageDatabase) (cands : List Key) (pos neg : Nat) :
    Except PyError (List (Key × Key × Nat)) :=
  genFrom db cands pos neg 0 cands

/-- A Python float that may be non-finite: `none` stands for NaN/inf. -/
abbrev Flt : Type := Option ℚ

/-- Float addition (`epoch_loss += loss.item()`): a non-finite operand
poisons the sum. -/
def fltAdd (a b : Flt) : Flt :=
  match a, b with
  | some x, some y => some (x + y)
  | _, _ => none

/-- The error outcomes the training loop of `train_model` can be checked
against: the `ZeroDivisionError` Python actually raises, and the
`Diverged` abort the spec describes. -/
inductive TrainingError where
  | diverged
  | zeroDivision
deriving DecidableEq

/-- `epoch_loss / len(dataloader)` with Python semantics: dividing by the
batch count 0 raises `ZeroDivisionError`; dividing a non-finite sum keeps
it non-finite. -/
def fltDivNat (x : Flt) (n : Nat) : Except TrainingError Flt :=
  if n = 0 then Except.error TrainingError.zeroDivision
  else Except.ok (Option.map (fun q => q / (n : ℚ)) x)

/-- `len(dataloader)` for a dataset of `numPairs` items:
`ceil(numPairs / batchSize)`. -/
def numBatches (numPairs batchSize : Nat) : Nat := (numPairs + batchSize - 1) / batchSize

/-- One epoch's inner batch loop of `train_model` over batch indices
`0, …, nB - 1`: the parameter update (`loss.backward(); optimizer.step()`)
is applied to every batch unconditionally — the source has no finiteness
check — and the losses are accumulated into `epoch_loss`.  `step` is the
optimizer update (abstract over the autograd arithmetic), `lossAt b` the
loss the batch at index `b` produced. -/
def epochRun {P : Type} (step : P → Flt → P) (lossAt : Nat → Flt) (nB : Nat)
    (params : P) : P × Flt :=
  (List.range nB).foldl (fun acc b => (step acc.1 (lossAt b), fltAdd acc.2 (lossAt b)))
    (params, some 0)

/-- The epoch loop of `train_model`, processing `remaining` further epochs
starting at epoch index `e`, threading the projection parameters and the
list of per-epoch average losses (the printed
`epoch_loss/len(dataloader)` values — the observable report). -/
def trainFrom {P : Type} (step : P → Flt → P) (lossAt : Nat → Nat → Flt) (nB : Nat) :
    Nat → Nat → P → List Flt → Except TrainingError (P × List Flt)
  | 0, _, params, report => Except.ok (params, report)
  | remaining + 1, e, params, report =>
    let res := epochRun step (lossAt e) nB params
    match fltDivNat res.2 nB with
    | Except.error err => Except.error err
    | Except.ok avg => trainFrom step lossAt nB remaining (e + 1) res.1 (report ++ [avg])

/-- The training loop of `train_model` (lines 38–73): `numPairs` mined
pairs, `batchSize` the DataLoader batch size, `numEpochs` epochs.
Returns the final projection parameters and the per-epoch mean-loss
report, or the error the loop raises. -/
def trainModel {P : Type} (step : P → Flt → P) (lossAt : Nat → Nat → Flt)
    (numPairs batchSize numEpochs : Nat) (params0 : P) :
    Except TrainingError (P × List Flt) :=
  trainFrom step lossAt (numBatches numPairs batchSize) numEpochs 0 params0 []

/-- Reference recursion applying the optimizer step to every batch of
every epoch with no error path at all: what the parameters end up as when
nothing interrupts the loop and no update is ever skipped. -/
def stepAllEpochs {P : Type} (step : P → Flt → P) (lossAt : Nat → Nat → Flt) (nB : Nat) :
    Nat → Nat → P → P
  | 0, _, p => p
  | n + 1, e, p =>
    stepAllEpochs step lossAt nB n (e + 1)
      ((List.range nB).foldl (fun q b => step q (lossAt e b)) p)

/-- Position of a key in a list of keys (first occurrence); the
`inserted_at_sequence` of the spec's data model is `posIn db.paths key`. -/
def posIn (l : List Key) (k : Key) : Nat :=
  match l with
  | [] => 0
  | x :: xs => if x = k then 0 else posIn xs k + 1

/-- Modelled from the spec: the tie-break rule the spec states for
`findSimilar` — among results with equal score, the one whose key has the
lower insertion sequence (position in `paths`) comes first. -/
def tieBreakByInsertionSeq (db : ImageDatabase) (r : List (Key × ℚ)) : Prop :=
  ∀ i j : Fin r.length, i.val < j.val → (r.get i).2 = (r.get j).2 →
    posIn db.paths (r.get i).1 < posIn db.paths (r.get j).1

instance (db : ImageDatabase) (r : List (Key × ℚ)) :
    Decidable (tieBreakByInsertionSeq db r) :=
  inferInstanceAs (Decidable (∀ _ : Fin r.length, _))

/-- Database states reachable from a fresh database through the source's
mutating operations: `add_image` (with or without `compute_embedding`) and
the direct embedding writes of `train_model`'s bulk-embed and
post-training refresh loops.  Wherever an embedding is written, the
oracle-provided norm `s` is constrained to be the genuine (nonzero)
Euclidean norm of the projected features `v`. -/
inductive ReachableDB : ImageDatabase → Prop where
  | empty : ReachableDB emptyDB
  | addNoEmbed (db : ImageDatabase) (path : Key) (h : Digest) (saveOk : Bool) :
      ReachableDB db → ReachableDB (addImage db path (some h) false none saveOk).2
  | addEmbed (db : ImageDatabase) (path : Key) (h : Digest) (v : Vec) (s : ℚ) (saveOk : Bool) :
      ReachableDB db → s * s = normSq v → s ≠ 0 →
      ReachableDB (addImage db path (some h) true (some (v, s)) saveOk).2
  | bulkEmbed (db : ImageDatabase) (path : Key) (v : Vec) (s : ℚ) :
      ReachableDB db → s * s = normSq v → s ≠ 0 →
      ReachableDB (bulkEmbedStep db path (some (v, s)))

/-- A store state produced by the source's own operations whose
embeddings-dict order disagrees with the paths (insertion) order:
`A` is added without an embedding, `B` is added with one, then `A` gets
its embedding in the bulk pass.  `paths = [A, B]` but the embeddings dict
lists `B` first. -/
def exDB3 : ImageDatabase :=
  bulkEmbedStep
    (addImage (addImage emptyDB "A" (some "hA") false none true).2
      "B" (some "hB") true (some ([1, 0], 1)) true).2
    "A" (some ([1, 0], 1))

/-- Store of the spec's §8 exact-match scenario: `A` and `B` share hash
`h1`, `C` has `h2`; embeddings are irrelevant. -/
def dbW1 : ImageDatabase :=
  { hashes := [("A", "h1"), ("B", "h1"), ("C", "h2")],
    embeddings := [("A", [0, 1]), ("B", [1, 0]), ("C", [1, 0])],
    paths := ["A", "B", "C"] }

/-- Store with three embedded items `A`, `B`, `C`. -/
def exDB4 : ImageDatabase :=
  { hashes := [("A", "hA"), ("B", "hB"), ("C", "hC")],
    embeddings := [("A", [1, 0]), ("B", [1, 0]), ("C", [1, 0])],
    paths := ["A", "B", "C"] }

/-- Store with the single embedded item `A`. -/
def dbC5 : ImageDatabase :=
  { hashes := [("A", "h")], embeddings := [("A", [1, 0])], paths := ["A"] }

/-- Store that already contains key `A` (hash `old`, no embedding). -/
def dbC6 : ImageDatabase :=
  { hashes := [("A", "old")], embeddings := [], paths := ["A"] }

/-! ### Helper lemmas -/

theorem dictLookup_dictInsert_self (d : List (Key × α)) (k : Key) (v : α) :
    dictLookup (dictInsert d k v) k = some v := by
  induction d with
  | nil => simp [dictInsert, dictLookup]
  | cons q rest ih =>
    obtain ⟨k', v'⟩ := q
    by_cases h : k' = k
    · simp [dictInsert, dictLookup, h]
    · simp [dictInsert, dictLookup, h, ih]

theorem mem_dictInsert {d : List (Key × α)} {k : Key} {v : α} {p : Key × α}
    (h : p ∈ dictInsert d k v) : p ∈ d ∨ p = (k, v) := by
  induction d with
  | nil =>
    right
    simpa [dictInsert] using h
  | cons q rest ih =>
    obtain ⟨k', v'⟩ := q
    by_cases hk : k' = k
    · simp only [dictInsert, if_pos hk, List.mem_cons] at h
      rcases h with h | h
      · right; exact h
      · left; exact List.mem_cons_of_mem _ h
    · simp only [dictInsert, if_neg hk, List.mem_cons] at h
      rcases h with h | h
      · left; simp [h]
      · rcases ih h with h' | h'
        · left; exact List.mem_cons_of_mem _ h'
        · right; exact h'

theorem dictLookup_mem {d : List (Key × α)} {k : Key} {v : α}
    (h : dictLookup d k = some v) : (k, v) ∈ d := by
  induction d with
  | nil => simp [dictLookup] at h
  | cons q rest ih =>
    obtain ⟨k', v'⟩ := q
    by_cases hk : k' = k
    · simp only [dictLookup, if_pos hk, Option.some.injEq] at h
      subst hk
      subst h
      exact List.mem_cons_self _ _
    · simp only [dictLookup, if_neg hk] at h
      exact List.mem_cons_of_mem _ (ih h)

theorem normSq_cons (x : ℚ) (xs : List ℚ) : normSq (x :: xs) = x * x + normSq xs := by
  simp [normSq]

theorem normSq_normalizeVec (v : Vec) (s : ℚ) :
    normSq (normalizeVec v s) = normSq v / (s * s) := by
  induction v with
  | nil => simp [normSq, normalizeVec]
  | cons x xs ih =>
    show normSq (x / s :: normalizeVec xs s) = normSq (x :: xs) / (s * s)
    rw [normSq_cons, normSq_cons, ih, div_mul_div_comm, div_add_div_same]

theorem normSq_normalizeVec_unit (v : Vec) (s : ℚ) (h : s * s = normSq v) (hnz : s ≠ 0) :
    normSq (normalizeVec v s) = 1 := by
  rw [normSq_normalizeVec, ← h, div_self (mul_ne_zero hnz hnz)]

theorem filter_score_orderedInsert (x : Key × ℚ) (c : ℚ) (l : List (Key × ℚ)) :
    (List.orderedInsert simOrder x l).filter (fun y => y.2 = c)
      = if x.2 = c then x :: l.filter (fun y => y.2 = c)
        else l.filter (fun y => y.2 = c) := by
  induction l with
  | nil => by_cases hxc : x.2 = c <;> simp [List.orderedInsert, hxc]
  | cons b bs ih =>
    by_cases hr : simOrder x b
    · by_cases hxc : x.2 = c <;> simp [List.orderedInsert, if_pos hr, List.filter_cons, hxc]
    · have hbx : x.2 < b.2 := not_le.mp hr
      simp only [List.orderedInsert, if_neg hr]
      by_cases hbc : b.2 = c
      · have hxc : ¬ x.2 = c := by
          rw [← hbc]
          exact ne_of_lt hbx
        rw [List.filter_cons_of_pos (by simpa using hbc), ih, if_neg hxc, if_neg hxc,
          List.filter_cons_of_pos (by simpa using hbc)]
      · by_cases hxc : x.2 = c
        · rw [List.filter_cons_of_neg (by simpa using hbc), ih, if_pos hxc, if_pos hxc,
            List.filter_cons_of_neg (by simpa using hbc)]
        · rw [List.filter_cons_of_neg (by simpa using hbc), ih, if_neg hxc, if_neg hxc,
            List.filter_cons_of_neg (by simpa using hbc)]

theorem filter_score_insertionSort (c : ℚ) (l : List (Key × ℚ)) :
    (List.insertionSort simOrder l).filter (fun y => y.2 = c)
      = l.filter (fun y => y.2 = c) := by
  induction l with
  | nil => rfl
  | cons x xs ih =>
    show (List.orderedInsert simOrder x (List.insertionSort simOrder xs)).filter _ = _
    rw [filter_score_orderedInsert]
    by_cases hxc : x.2 = c
    · rw [if_pos hxc, ih, List.filter_cons_of_pos (by simpa using hxc)]
    · rw [if_neg hxc, ih, List.filter_cons_of_neg (by simpa using hxc)]

/-! ### Claim theorems -/

/-- C1: if at least one stored item's content hash equals the query's
hash, `find_similar_images` returns exactly the items with that hash,
each with score exactly 1.0, and never falls through to the embedding
ranking, regardless of what the stored embeddings are. -/
theorem exact_match_short_circuit (db : ImageDatabase) (qe : Vec) (qh : Digest) (k : Nat)
    (h : ∃ p ∈ db.hashes, p.2 = qh) :
    findSimilarImages db qe qh k = exactMatches db qh
    ∧ (∀ x ∈ findSimilarImages db qe qh k, x.2 = 1)
    ∧ (∀ key : Key, (∃ sc, (key, sc) ∈ findSimilarImages db qe qh k) ↔ (key, qh) ∈ db.hashes)
    ∧ (∀ embs, findSimilarImages { db with embeddings := embs } qe qh k
        = findSimilarImages db qe qh k) := by
  obtain ⟨p, hp, hph⟩ := h
  have hfil : p ∈ db.hashes.filter (fun q => q.2 = qh) :=
    List.mem_filter.mpr ⟨hp, by simpa using hph⟩
  have hne : ¬ (exactMatches db qh).isEmpty = true := by
    cases hfe : db.hashes.filter (fun q => q.2 = qh) with
    | nil => rw [hfe] at hfil; cases hfil
    | cons a as => simp [exactMatches, hfe]
  have heq : findSimilarImages db qe qh k = exactMatches db qh := by
    unfold findSimilarImages
    rw [if_neg hne]
  refine ⟨heq, ?_, ?_, ?_⟩
  · intro x hx
    rw [heq] at hx
    obtain ⟨q, _, hqx⟩ := List.mem_map.mp hx
    rw [← hqx]
  · intro key
    constructor
    · rintro ⟨sc, hsc⟩
      rw [heq] at hsc
      obtain ⟨q, hq, hqx⟩ := List.mem_map.mp hsc
      obtain ⟨q1, q2⟩ := q
      obtain ⟨hqmem, hq2⟩ := List.mem_filter.mp hq
      have h1 : q1 = key := (Prod.mk.injEq _ _ _ _ ▸ hqx).1
      have h2 : q2 = qh := by simpa using hq2
      rw [← h1, ← h2]
      exact hqmem
    · intro hmem
      refine ⟨1, ?_⟩
      rw [heq]
      exact List.mem_map.mpr ⟨(key, qh), List.mem_filter.mpr ⟨hmem, by simp⟩, rfl⟩
  · intro embs
    have hne' : ¬ (exactMatches { db with embeddings := embs } qh).isEmpty = true := hne
    unfold findSimilarImages
    rw [if_neg hne, if_neg hne']
    rfl

/-- C1 witness: the spec's §8 scenario — `A` and `B` share hash `h1`,
`C` does not; querying with hash `h1` and `k = 2` returns the two exact
matches with score 1, in insertion order, although the query embedding
is orthogonal to `B`'s. -/
theorem exact_match_short_circuit_witness :
    findSimilarImages dbW1 [0, 1] "h1" 2 = [("A", 1), ("B", 1)] := by
  have h := (exact_match_short_circuit dbW1 [0, 1] "h1" 2 ⟨("A", "h1"), by decide, rfl⟩).1
  rw [h]
  rfl

/-- C2: in every store state reachable through `add_image`, the bulk
embedding pass and the post-fit refresh pass — with the norm oracle
returning the genuine, nonzero Euclidean norm of the projected
features — every stored embedding has unit norm. -/
theorem embedding_norm_invariant (db : ImageDatabase) (h : ReachableDB db) :
    ∀ p ∈ db.embeddings, normSq p.2 = 1 := by
  induction h with
  | empty => intro p hp; cases hp
  | addNoEmbed db path hd saveOk _ ih =>
    intro p hp
    exact ih p (by simpa [addImage] using hp)
  | addEmbed db path hd v s saveOk _ hs hnz ih =>
    intro p hp
    have hp' : p ∈ dictInsert db.embeddings path (getImageEmbedding v s) := by
      simpa [addImage] using hp
    rcases mem_dictInsert hp' with hmem | hpe
    · exact ih p hmem
    · rw [hpe]
      exact normSq_normalizeVec_unit v s hs hnz
  | bulkEmbed db path v s _ hs hnz ih =>
    intro p hp
    have hp' : p ∈ dictInsert db.embeddings path (getImageEmbedding v s) := by
      simpa [bulkEmbedStep] using hp
    rcases mem_dictInsert hp' with hmem | hpe
    · exact ih p hmem
    · rw [hpe]
      exact normSq_normalizeVec_unit v s hs hnz

/-- C2 witness: the refresh write of features `[3, 4]` with norm `5` into
the fresh store leaves an embedding of unit norm. -/
theorem embedding_norm_invariant_witness :
    normSq (getImageEmbedding [3, 4] 5) = 1 := by
  have hr : ReachableDB (bulkEmbedStep emptyDB "A" (some ([3, 4], 5))) :=
    ReachableDB.bulkEmbed emptyDB "A" [3, 4] 5 ReachableDB.empty
      (by norm_num [normSq]) (by norm_num)
  exact embedding_norm_invariant _ hr ("A", getImageEmbedding [3, 4] 5)
    (by simp [bulkEmbedStep, emptyDB, dictInsert])

/-- C6: calling `add_image` again on a key that is already in `paths`
overwrites the hash (and, when `compute_embedding` is set, the
embedding) with the latest values, while `paths` — hence the insertion
order's length and the key's position — is unchanged; without
`compute_embedding` the embeddings map is untouched. -/
theorem add_existing_key_upsert (db : ImageDatabase) (path : Key) (hd : Digest)
    (v : Vec) (s : ℚ) (saveOk : Bool) (hmem : path ∈ db.paths) :
    (addImage db path (some hd) true (some (v, s)) saveOk).2.paths = db.paths
    ∧ dictLookup (addImage db path (some hd) true (some (v, s)) saveOk).2.hashes path = some hd
    ∧ dictLookup (addImage db path (some hd) true (some (v, s)) saveOk).2.embeddings path
        = some (getImageEmbedding v s)
    ∧ (addImage db path (some hd) false none saveOk).2.paths = db.paths
    ∧ dictLookup (addImage db path (some hd) false none saveOk).2.hashes path = some hd
    ∧ (addImage db path (some hd) false none saveOk).2.embeddings = db.embeddings := by
  refine ⟨?_, ?_, ?_, ?_, ?_, ?_⟩ <;>
    simp [addImage, hmem, dictLookup_dictInsert_self]

/-- C6 witness: re-adding key `A` of `dbC6` with a new hash keeps
`paths = [A]` and updates the stored hash. -/
theorem add_existing_key_upsert_witness :
    (addImage dbC6 "A" (some "new") true (some ([3, 4], 5)) true).2.paths = dbC6.paths
    ∧ dictLookup (addImage dbC6 "A" (some "new") true (some ([3, 4], 5)) true).2.hashes "A"
        = some "new" := by
  have h := add_existing_key_upsert dbC6 "A" "new" [3, 4] 5 true (by decide)
  exact ⟨h.1, h.2.1⟩

/-- C9: querying a store with no stored hashes and no stored embeddings
returns the empty list for every `k` (and the model is total — no
exception is possible). -/
theorem query_empty_store (db : ImageDatabase) (qe : Vec) (qh : Digest) (k : Nat)
    (h1 : db.hashes = []) (h2 : db.embeddings = []) :
    findSimilarImages db qe qh k = [] := by
  simp [findSimilarImages, exactMatches, similarityList, h1, h2, List.insertionSort]

/-- C9 witness: querying the fresh empty store returns `[]`. -/
theorem query_empty_store_witness : findSimilarImages emptyDB [1, 2] "q" 7 = [] :=
  query_empty_store emptyDB [1, 2] "q" 7 rfl rfl

/-- C10: `add_image` never raises — every failure returns `False`, success
returns `True` — and it is not atomic on failure: when the embedding
computation raises after the hash and path were written, those writes
remain in the store although the call reports `False`. -/
theorem add_never_raises_not_atomic (db : ImageDatabase) (path : Key) (hd : Digest)
    (ce : Bool) (er : Option (Vec × ℚ)) (sv : Bool) (v : Vec) (s : ℚ) :
    addImage db path none ce er sv = (false, db)
    ∧ (addImage db path (some hd) true none sv).1 = false
    ∧ dictLookup (addImage db path (some hd) true none sv).2.hashes path = some hd
    ∧ path ∈ (addImage db path (some hd) true none sv).2.paths
    ∧ (addImage db path (some hd) true none sv).2.embeddings = db.embeddings
    ∧ (addImage db path (some hd) true (some (v, s)) true).1 = true
    ∧ (addImage db path (some hd) true (some (v, s)) false).1 = false
    ∧ (addImage db path (some hd) false none true).1 = true
    ∧ (addImage db path (some hd) false none false).1 = false := by
  refine ⟨rfl, rfl, ?_, ?_, rfl, rfl, rfl, rfl, rfl⟩
  · simp [addImage, dictLookup_dictInsert_self]
  · by_cases hmem : path ∈ db.paths
    · simp [addImage, hmem]
    · simp [addImage, hmem]

/-- C3 (amended): the ranking branch of `find_similar_images` returns at
most `k` results, sorted by descending score, and items without a stored
embedding never appear; results with equal score keep the order in which
their keys appear in the embeddings dict (first embedding write), which
is not in general the key insertion sequence — see the counterexample. -/
theorem find_similar_ranking (db : ImageDatabase) (qe : Vec) (qh : Digest) (k : Nat)
    (hne : exactMatches db qh = []) :
    findSimilarImages db qe qh k
        = (List.insertionSort simOrder (similarityList db qe)).take k
    ∧ (findSimilarImages db qe qh k).length ≤ k
    ∧ List.Sorted simOrder (findSimilarImages db qe qh k)
    ∧ (∀ x ∈ findSimilarImages db qe qh k, ∃ e, (x.1, e) ∈ db.embeddings)
    ∧ (∀ c : ℚ, (List.insertionSort simOrder (similarityList db qe)).filter (fun y => y.2 = c)
        = (similarityList db qe).filter (fun y => y.2 = c)) := by
  have heq : findSimilarImages db qe qh k
      = (List.insertionSort simOrder (similarityList db qe)).take k := by
    unfold findSimilarImages
    rw [if_pos (by rw [hne]; rfl)]
  refine ⟨heq, ?_, ?_, ?_, fun c => filter_score_insertionSort c _⟩
  · rw [heq]
    exact List.length_take_le k _
  · rw [heq]
    exact List.Pairwise.sublist (List.take_sublist k _) (List.sorted_insertionSort simOrder _)
  · intro x hx
    rw [heq] at hx
    have hx2 : x ∈ List.insertionSort simOrder (similarityList db qe) :=
      List.take_subset _ _ hx
    have hx3 : x ∈ similarityList db qe :=
      (List.perm_insertionSort simOrder _).mem_iff.mp hx2
    obtain ⟨p, hpmem, hpx⟩ := List.mem_map.mp hx3
    refine ⟨p.2, ?_⟩
    have h1 : x.1 = p.1 := by rw [← hpx]
    rw [h1]
    simpa using hpmem

/-- C3 witness: on the two-item store `exDB3` with a non-matching query
hash, the ranking branch runs and its result is sorted descending. -/
theorem find_similar_ranking_witness :
    exactMatches exDB3 "nomatch" = []
    ∧ List.Sorted simOrder (findSimilarImages exDB3 [1, 0] "nomatch" 5) :=
  ⟨by with_unfolding_all decide,
   (find_similar_ranking exDB3 [1, 0] "nomatch" 5 (by with_unfolding_all decide)).2.2.1⟩

/-- C3 counterexample: `exDB3` is reached by add(A, no embedding),
add(B, with embedding), bulk-embed(A); its insertion sequence is A then
B, yet the two score-1 ties come back as [B, A] — equal scores are NOT
ordered by lower insertion sequence first. -/
theorem find_similar_tiebreak_counterexample :
    exDB3.paths = ["A", "B"]
    ∧ findSimilarImages exDB3 [1, 0] "nomatch" 5 = [("B", 1), ("A", 1)]
    ∧ ¬ tieBreakByInsertionSeq exDB3 (findSimilarImages exDB3 [1, 0] "nomatch" 5) :=
  ⟨by with_unfolding_all decide, by with_unfolding_all decide, by with_unfolding_all decide⟩

theorem foldl_pair_fst {P : Type} (step : P → Flt → P) (le : Nat → Flt) :
    ∀ (l : List Nat) (p : P) (s : Flt),
      (l.foldl (fun acc b => (step acc.1 (le b), fltAdd acc.2 (le b))) (p, s)).1
        = l.foldl (fun q b => step q (le b)) p := by
  intro l
  induction l with
  | nil => intro p s; rfl
  | cons b bs ih =>
    intro p s
    simp only [List.foldl_cons]
    exact ih (step p (le b)) (fltAdd s (le b))

theorem epochRun_fst {P : Type} (step : P → Flt → P) (le : Nat → Flt) (nB : Nat) (p : P) :
    (epochRun step le nB p).1 = (List.range nB).foldl (fun q b => step q (le b)) p :=
  foldl_pair_fst step le (List.range nB) p (some 0)

theorem trainFrom_ok {P : Type} (step : P → Flt → P) (lossAt : Nat → Nat → Flt)
    (nB : Nat) (hnB : nB ≠ 0) :
    ∀ (remaining e : Nat) (params : P) (report : List Flt),
      ∃ rep : List Flt,
        trainFrom step lossAt nB remaining e params report
          = Except.ok (stepAllEpochs step lossAt nB remaining e params, rep)
        ∧ rep.length = report.length + remaining := by
  intro remaining
  induction remaining with
  | zero =>
    intro e params report
    exact ⟨report, rfl, rfl⟩
  | succ n ih =>
    intro e params report
    obtain ⟨rep, hrep, hlen⟩ := ih (e + 1) ((epochRun step (lossAt e) nB params).1)
      (report ++ [Option.map (fun q => q / ((nB : ℚ))) (epochRun step (lossAt e) nB params).2])
    refine ⟨rep, ?_, ?_⟩
    · show trainFrom step lossAt nB (n + 1) e params report = _
      simp only [trainFrom, fltDivNat, if_neg hnB]
      rw [hrep, epochRun_fst]
      rfl
    · rw [hlen]
      simp only [List.length_append, List.length_cons, List.length_nil]
      omega

theorem trainFrom_ne_diverged {P : Type} (step : P → Flt → P) (lossAt : Nat → Nat → Flt)
    (nB : Nat) :
    ∀ (remaining e : Nat) (params : P) (report : List Flt),
      trainFrom step lossAt nB remaining e params report
        ≠ Except.error TrainingError.diverged := by
  intro remaining
  induction remaining with
  | zero =>
    intro e params report
    simp [trainFrom]
  | succ n ih =>
    intro e params report
    by_cases hnB : nB = 0
    · simp [trainFrom, fltDivNat, hnB]
    · simp only [trainFrom, fltDivNat, if_neg hnB]
      exact ih (e + 1) _ _

/-- C7: contrary to the spec — which prescribes returning immediately
with a zero-epoch report on an empty pair set — `train_model` with zero
mined pairs has `len(dataloader) = 0` and its first epoch evaluates
`epoch_loss / len(dataloader)`, raising `ZeroDivisionError` (source
defaults: `batch_size = 8`, `num_epochs = 5`); this holds for every
optimizer step function and every loss oracle. -/
theorem train_empty_pairs_zero_division {P : Type} (step : P → Flt → P)
    (lossAt : Nat → Nat → Flt) (p0 : P) :
    trainModel step lossAt 0 8 5 p0 = Except.error TrainingError.zeroDivision := rfl

/-- C8 (amended): the training loop has no finiteness check at all: with
at least one pair and a positive batch size it always returns `ok`,
applying the optimizer update of every batch — including any batch whose
loss is non-finite — and it can never return a `Diverged` error for any
input whatsoever (its only error is the zero-batch division). -/
theorem train_no_divergence_abort {P : Type} (step : P → Flt → P)
    (lossAt : Nat → Nat → Flt) (numPairs batchSize numEpochs : Nat) (p0 : P)
    (hp : 0 < numPairs) (hb : 0 < batchSize) :
    (∃ rep : List Flt,
        trainModel step lossAt numPairs batchSize numEpochs p0
          = Except.ok
              (stepAllEpochs step lossAt (numBatches numPairs batchSize) numEpochs 0 p0, rep)
        ∧ rep.length = numEpochs)
    ∧ (∀ (nP bS nE : Nat) (q0 : P),
        trainModel step lossAt nP bS nE q0 ≠ Except.error TrainingError.diverged) := by
  constructor
  · have hnB : numBatches numPairs batchSize ≠ 0 := by
      unfold numBatches
      have h1 : batchSize ≤ numPairs + batchSize - 1 := by omega
      have h2 := (Nat.one_le_div_iff hb).mpr h1
      omega
    obtain ⟨rep, hrep, hlen⟩ := trainFrom_ok step lossAt _ hnB numEpochs 0 p0 []
    exact ⟨rep, hrep, by simpa using hlen⟩
  · intro nP bS nE q0
    exact trainFrom_ne_diverged step lossAt _ nE 0 q0 []

/-- C8 amended-claim witness: one pair, one epoch, batch size 8. -/
theorem train_no_divergence_abort_witness :
    ∃ rep : List Flt,
      trainModel (fun (p : List Flt) l => p ++ [l]) (fun _ _ => (none : Flt)) 1 8 1 []
        = Except.ok
            (stepAllEpochs (fun (p : List Flt) l => p ++ [l]) (fun _ _ => (none : Flt))
              (numBatches 1 8) 1 0 [], rep)
      ∧ rep.length = 1 :=
  (train_no_divergence_abort (fun (p : List Flt) l => p ++ [l]) (fun _ _ => (none : Flt))
    1 8 1 [] (by decide) (by decide)).1

/-- C8 counterexample: tracing the optimizer updates (the parameter state
records each applied batch loss), a run whose single batch has a
non-finite loss returns `ok` — not `TrainingError.diverged` — and the bad
update has been applied: the parameters end at `[none]`, not at their
initial (last-good) value `[]`. -/
theorem train_diverged_counterexample :
    trainModel (fun (p : List Flt) l => p ++ [l]) (fun _ _ => (none : Flt)) 1 8 1 []
      = Except.ok ([none], [none])
    ∧ (Except.ok (([none] : List Flt), ([none] : List Flt))
        : Except TrainingError (List Flt × List Flt))
        ≠ Except.error TrainingError.diverged
    ∧ ([none] : List Flt) ≠ [] := by
  refine ⟨rfl, ?_, ?_⟩ <;> simp

theorem simsFrom_ok_nil {db : ImageDatabase} {i : Nat} :
    ∀ (rest : List Key) (j : Nat) (sims : List (Key × ℚ)),
      simsFrom db i j rest = Except.ok sims → sims = [] := by
  intro rest
  induction rest with
  | nil =>
    intro j sims h
    simp only [simsFrom] at h
    injection h with h
    exact h.symm
  | cons other rest ih =>
    intro j sims h
    simp only [simsFrom] at h
    split at h
    · exact ih (j + 1) sims h
    · split at h
      · exact ih (j + 1) sims h
      · cases h

theorem minedFor_ok_nil {db : ImageDatabase} {cands : List Key} {i : Nat} {path : Key}
    {pos neg : Nat} {prs : List (Key × Key × Nat)}
    (h : minedFor db cands i path pos neg = Except.ok prs) : prs = [] := by
  unfold minedFor at h
  split at h
  · injection h with h
    exact h.symm
  · split at h
    · cases h
    · rename_i sims hsims
      have hnil : sims = [] := simsFrom_ok_nil cands 0 sims hsims
      subst hnil
      simp only [List.insertionSort, List.take_nil, List.map_nil, lastN,
        List.length_nil, List.drop_nil, List.nil_append] at h
      injection h with h
      exact h.symm

theorem genFrom_ok_nil {db : ImageDatabase} {cands : List Key} {pos neg : Nat} :
    ∀ (rest : List Key) (i : Nat) (prs : List (Key × Key × Nat)),
      genFrom db cands pos neg i rest = Except.ok prs → prs = [] := by
  intro rest
  induction rest with
  | nil =>
    intro i prs h
    simp only [genFrom] at h
    injection h with h
    exact h.symm
  | cons path rest ih =>
    intro i prs h
    simp only [genFrom] at h
    split at h
    · cases h
    · rename_i prs1 hmined
      split at h
      · cases h
      · rename_i more hmore
        have h1 : prs1 = [] := minedFor_ok_nil hmined
        have h2 : more = [] := ih (i + 1) more hmore
        injection h with h
        rw [← h, h1, h2]
        rfl

theorem generatePairs_cases (db : ImageDatabase) (cands : List Key) (pos neg : Nat) :
    generatePairs db cands pos neg = Except.error PyError.nameError
    ∨ generatePairs db cands pos neg = Except.ok [] := by
  cases hg : generatePairs db cands pos neg with
  | error e =>
    cases e
    left
    rfl
  | ok prs =>
    right
    rw [genFrom_ok_nil cands 0 prs hg]

/-- C4: the mining algorithm the claim describes is never executed:
`dataset.py` binds `Dataset` from `torch.utils.data` but never the name
`torch`, so the similarity line `torch.matmul(emb_i, emb_j.T)` raises
`NameError` as soon as any embedded anchor meets another embedded
candidate — at the claim's kind of input (here: store `exDB4` with
three embedded keys, candidates `[C, B, A]`) `_generate_pairs` raises
instead of producing sorted labeled pairs, and every run that does
return returns the empty pair list. -/
theorem mine_pairs_name_error :
    generatePairs exDB4 ["C", "B", "A"] 1 1 = Except.error PyError.nameError
    ∧ ∀ (db : ImageDatabase) (cands : List Key) (pos neg : Nat),
        generatePairs db cands pos neg = Except.error PyError.nameError
        ∨ generatePairs db cands pos neg = Except.ok [] :=
  ⟨rfl, generatePairs_cases⟩

/-- C5: the claim quantifies over the pairs `minePairs` produces, but the
code can produce none: with the duplicate candidate list `[A, A]` over a
store in which `A` is embedded, the `j = 1` iteration reaches the
`torch.matmul` line and raises `NameError` (the name `torch` is unbound
in `dataset.py`) before any pair is appended; in general
`_generate_pairs` never returns a non-empty pair list. -/
theorem mined_self_pair_name_error :
    generatePairs dbC5 ["A", "A"] 3 3 = Except.error PyError.nameError
    ∧ ∀ (db : ImageDatabase) (cands : List Key) (pos neg : Nat)
        (pr : Key × Key × Nat) (prs : List (Key × Key × Nat)),
        generatePairs db cands pos neg ≠ Except.ok (pr :: prs) := by
  refine ⟨rfl, ?_⟩
  intro db cands pos neg pr prs h
  rcases generatePairs_cases db cands pos neg with h2 | h2
  · exact Except.noConfusion (h.symm.trans h2)
  · have h3 := h.symm.trans h2
    injection h3 with h3
    cases h3
